import Mathlib

/-!
# Verification of the unifex document model, merge engine and search engine

Shallow embedding of `src/unifex/base/models.py` (data model, line grouping,
gap-based merge, search) together with the polygon reduction of
`src/xtra/extractors/paddle_ocr.py` and a spec-modelled coordinate converter
(the converter's own source, `xtra/base/coordinates.py`, is not present in the
repository snapshot; only its callers are).

Python floats are modelled as rationals (`ℚ`): all arithmetic appearing in the
claims is exact decimal arithmetic, where `ℚ` and IEEE doubles agree.  Python
strings are Lean `String`s; `dict` insertion order (Python ≥ 3.7 guarantees
first-insertion iteration order) is modelled explicitly by `firstKeys` /
`lineGroups`.  Literal patterns compiled through `re.escape` match exactly as
substring search, which is how patterns are modelled here.
-/

namespace Unifex

/-- `ExtractorType` enum of `models.py`. -/
inductive ExtractorType where
  | pdf
  | easyocr
  | tesseract
  | paddle
  | azureDi
  | googleDocai
deriving DecidableEq, Repr

/-- `CoordinateUnit` enum of `models.py`: units for coordinate output. -/
inductive CoordinateUnit where
  | pixels
  | points
  | inches
  | normalized
deriving DecidableEq, Repr

/-- `BBox` model of `models.py`: four float fields, no validators. -/
structure BBox where
  x0 : ℚ
  y0 : ℚ
  x1 : ℚ
  y1 : ℚ
deriving DecidableEq, Repr

/-- `FontInfo` model of `models.py`. -/
structure FontInfo where
  name : Option String
  size : Option ℚ
  flags : Option ℤ
  weight : Option ℤ
deriving DecidableEq, Repr

/-- `TextBlock` model of `models.py`. -/
structure TextBlock where
  text : String
  bbox : BBox
  rotation : ℚ
  confidence : Option ℚ
  font_info : Option FontInfo
deriving DecidableEq, Repr

/-- `CoordinateInfo` model of `models.py`. -/
structure CoordinateInfo where
  unit : CoordinateUnit
  dpi : Option ℚ
deriving DecidableEq, Repr

/-- `TableCell` model of `models.py`. -/
structure TableCell where
  text : String
  row : ℤ
  col : ℤ
  bbox : Option BBox
deriving DecidableEq, Repr

/-- `Table` model of `models.py` (the pandas view `to_dataframe` is not part
of the verified core). -/
structure Table where
  page : ℤ
  cells : List TableCell
  row_count : ℤ
  col_count : ℤ
  bbox : Option BBox
deriving DecidableEq, Repr

/-- `Page` model of `models.py`. -/
structure Page where
  page : ℤ
  width : ℚ
  height : ℚ
  texts : List TextBlock
  tables : List Table
  coordinate_info : Option CoordinateInfo
deriving DecidableEq, Repr

/-- `ExtractorMetadata` model of `models.py` (the open-ended `extra` map is
modelled as an association list). -/
structure ExtractorMetadata where
  extractor_type : ExtractorType
  creator : Option String
  producer : Option String
  title : Option String
  author : Option String
  creation_date : Option String
  modification_date : Option String
  extra : List (String × String)
deriving DecidableEq, Repr

/-- `SearchResult` model of `models.py`. -/
structure SearchResult where
  page : ℤ
  block : TextBlock
  original_blocks : List TextBlock
deriving DecidableEq, Repr

/-- `Document` model of `models.py` (pydantic `Path` is a string here). -/
structure Document where
  path : String
  pages : List Page
  metadata : Option ExtractorMetadata
deriving DecidableEq, Repr

/-! ## Pattern matching

A string pattern goes through `re.compile(re.escape(pattern), flags)` in
`models.py` and is then used via `compiled.search(text)`: for an escaped
literal this is exactly substring search, case-folded when `re.IGNORECASE`
is set. -/

/-- `matchAt needle hay` holds when `needle` is an initial segment of `hay`. -/
def matchAt : List Char → List Char → Bool
  | [], _ => true
  | _ :: _, [] => false
  | a :: as, b :: bs => a == b && matchAt as bs

/-- `hasSub needle hay`: `needle` occurs contiguously inside `hay`. -/
def hasSub (needle : List Char) : List Char → Bool
  | [] => matchAt needle []
  | c :: rest => matchAt needle (c :: rest) || hasSub needle rest

/-- Behaviour of `compiled.search` for a literal pattern produced by
`re.escape`, with the `re.IGNORECASE` flag modelled by lower-casing both
sides. -/
def patMatches (pattern : String) (case_sensitive : Bool) (text : String) : Bool :=
  if case_sensitive then hasSub pattern.toList text.toList
  else hasSub (pattern.toList.map Char.toLower) (text.toList.map Char.toLower)

/-! ## Line grouping -/

/-- Python's `int()` applied to a real number truncates toward zero
(`int(-0.6) == 0`), unlike mathematical floor. -/
def truncInt (q : ℚ) : ℤ :=
  if 0 ≤ q then ⌊q⌋ else ⌈q⌉

/-- The line key computed in `_search_blocks`:
`int(block.bbox.y0 / line_gap) if line_gap > 0 else 0`. -/
def lineKey (line_gap : ℚ) (b : TextBlock) : ℤ :=
  if 0 < line_gap then truncInt (b.bbox.y0 / line_gap) else 0

/-- Distinct keys in order of first occurrence — the iteration order of the
`line_groups` dict built by appending in block-storage order. -/
def firstKeys : List ℤ → List ℤ
  | [] => []
  | k :: rest => k :: (firstKeys rest).filter (fun k2 => k2 ≠ k)

/-- The `line_groups` dict of `_search_blocks`, as a list of groups in
first-insertion key order; each group lists its blocks in storage order. -/
def lineGroups (blocks : List TextBlock) (line_gap : ℚ) : List (List TextBlock) :=
  (firstKeys (blocks.map (lineKey line_gap))).map
    (fun k => blocks.filter (fun b => lineKey line_gap b = k))

/-! ## Gap-based merge -/

/-- Comparison used by `sorted(blocks, key=lambda b: b.bbox.x0)`. -/
def leX0 (a b : TextBlock) : Prop := a.bbox.x0 ≤ b.bbox.x0

instance : DecidableRel leX0 := fun a b => inferInstanceAs (Decidable (a.bbox.x0 ≤ b.bbox.x0))

instance : IsTotal TextBlock leX0 := ⟨fun a b => le_total a.bbox.x0 b.bbox.x0⟩

instance : IsTrans TextBlock leX0 := ⟨fun _ _ _ h1 h2 => le_trans h1 h2⟩

/-- Python's `sorted` by `x0`: a stable sort; insertion sort keeps equal keys
in their original relative order. -/
def sortByX0 (blocks : List TextBlock) : List TextBlock :=
  List.insertionSort leX0 blocks

/-- `min` over a nonempty list given as head plus tail. -/
def minOf (x : ℚ) (xs : List ℚ) : ℚ := xs.foldl min x

/-- `max` over a nonempty list given as head plus tail. -/
def maxOf (x : ℚ) (xs : List ℚ) : ℚ := xs.foldl max x

/-- `_create_merged_block` of `models.py`: a singleton run passes through
unchanged; a longer run joins texts with single spaces, takes the bbox union,
the first block's rotation, and drops confidence (and font info, which the
`TextBlock(...)` call never sets).  The Python function is only ever called
on nonempty lists (`min()` of an empty sequence would raise); the `[]` case
is unreachable junk. -/
def _create_merged_block : List TextBlock → TextBlock
  | [] => ⟨"", ⟨0, 0, 0, 0⟩, 0, none, none⟩
  | [b] => b
  | b :: c :: rest =>
      ⟨String.intercalate " " ((b :: c :: rest).map (fun t => t.text)),
       ⟨minOf b.bbox.x0 ((b :: c :: rest).map (fun t => t.bbox.x0)),
        minOf b.bbox.y0 ((b :: c :: rest).map (fun t => t.bbox.y0)),
        maxOf b.bbox.x1 ((b :: c :: rest).map (fun t => t.bbox.x1)),
        maxOf b.bbox.y1 ((b :: c :: rest).map (fun t => t.bbox.y1))⟩,
       b.rotation, none, none⟩

/-- The accumulation loop of `_merge_blocks_by_gap`: `cur` is the current
group in reverse (its head is the previously appended block). -/
def mergeAux (gap : ℚ) (cur : List TextBlock) : List TextBlock → List TextBlock
  | [] => [_create_merged_block cur.reverse]
  | blk :: rest =>
      match cur with
      | [] => mergeAux gap [blk] rest
      | prev :: _ =>
          if blk.bbox.x0 - prev.bbox.x1 ≤ gap then
            mergeAux gap (blk :: cur) rest
          else
            _create_merged_block cur.reverse :: mergeAux gap [blk] rest

/-- `_merge_blocks_by_gap` of `models.py`: sort by `x0`, then walk left to
right accumulating runs while the horizontal gap stays `≤ gap`. -/
def _merge_blocks_by_gap (blocks : List TextBlock) (gap : ℚ) : List TextBlock :=
  match sortByX0 blocks with
  | [] => []
  | b :: rest => mergeAux gap [b] rest

/-- Specification-side companion of `mergeAux` keeping the raw runs. -/
def runsAux (gap : ℚ) (cur : List TextBlock) : List TextBlock → List (List TextBlock)
  | [] => [cur.reverse]
  | blk :: rest =>
      match cur with
      | [] => runsAux gap [blk] rest
      | prev :: _ =>
          if blk.bbox.x0 - prev.bbox.x1 ≤ gap then
            runsAux gap (blk :: cur) rest
          else
            cur.reverse :: runsAux gap [blk] rest

/-- The runs (maximal merge groups) that `_merge_blocks_by_gap` closes, for an
already-sorted line. -/
def gapRuns (gap : ℚ) : List TextBlock → List (List TextBlock)
  | [] => []
  | b :: rest => runsAux gap [b] rest

/-- `_blocks_overlap` of `models.py`: horizontal interval overlap test. -/
def _blocks_overlap (a b : TextBlock) : Bool :=
  !(decide (a.bbox.x1 < b.bbox.x0) || decide (a.bbox.x0 > b.bbox.x1))

/-! ## Search -/

/-- Body of the per-line loop inside `_search_blocks` when `merge_gap` is
set: sort the line, merge it, keep matching merged blocks, and attach as
provenance the line blocks that horizontally overlap each match. -/
def lineMatches (pattern : String) (case_sensitive : Bool) (gap : ℚ)
    (line_blocks : List TextBlock) : List (TextBlock × List TextBlock) :=
  ((_merge_blocks_by_gap (sortByX0 line_blocks) gap).filter
      (fun m => patMatches pattern case_sensitive m.text)).map
    (fun m => (m, (sortByX0 line_blocks).filter (fun b => _blocks_overlap b m)))

/-- `_search_blocks` of `models.py`. -/
def _search_blocks (blocks : List TextBlock) (pattern : String)
    (case_sensitive : Bool) (merge_gap : Option ℚ) (line_gap : ℚ) :
    List (TextBlock × List TextBlock) :=
  match merge_gap with
  | some gap => (lineGroups blocks line_gap).flatMap (lineMatches pattern case_sensitive gap)
  | none =>
      (blocks.filter (fun b => patMatches pattern case_sensitive b.text)).map
        (fun b => (b, [b]))

/-- The per-page body of `_DocumentSearchMixin.search`'s loop. -/
def pageResults (p : Page) (pattern : String) (case_sensitive : Bool)
    (merge_gap : Option ℚ) (line_gap : ℚ) : List SearchResult :=
  (_search_blocks p.texts pattern case_sensitive merge_gap line_gap).map
    (fun r => ⟨p.page, r.1, r.2⟩)

/-- `_DocumentSearchMixin.search`: the `pages` argument (`int | list[int] |
None` in Python, normalised to a set) is modelled as `Option (List ℤ)`, a
single int becoming a one-element list; membership agrees with the Python
set test. -/
def Document.search (doc : Document) (pattern : String) (case_sensitive : Bool)
    (pages : Option (List ℤ)) (merge_gap : Option ℚ) (line_gap : ℚ) :
    List SearchResult :=
  doc.pages.flatMap (fun p =>
    match pages with
    | some tgt =>
        if p.page ∈ tgt then pageResults p pattern case_sensitive merge_gap line_gap
        else []
    | none => pageResults p pattern case_sensitive merge_gap line_gap)

/-- `Page.search` of `models.py`: per-page substring/regex match with no
merge step. -/
def Page.search (p : Page) (pattern : String) (case_sensitive : Bool) :
    List TextBlock :=
  p.texts.filter (fun b => patMatches pattern case_sensitive b.text)

/-! ## Polygon reduction (`src/xtra/extractors/paddle_ocr.py`)

`_polygon_to_bbox_and_rotation` reduces a polygon to
`BBox(min xs, min ys, max xs, max ys)` plus a rotation angle; the rotation
(`atan2` in degrees) is real-valued trigonometry irrelevant to the bbox
invariant and is not modelled.  Python's `min`/`max` raise on empty input;
callers always pass 4 points, the `[]` case is unreachable junk. -/

/-- Bbox part of `_polygon_to_bbox_and_rotation`. -/
def polygonToBBox : List (ℚ × ℚ) → BBox
  | [] => ⟨0, 0, 0, 0⟩
  | p :: rest =>
      ⟨minOf p.1 (rest.map Prod.fst), minOf p.2 (rest.map Prod.snd),
       maxOf p.1 (rest.map Prod.fst), maxOf p.2 (rest.map Prod.snd)⟩

/-- The search results one line group contributes, tagged with the page
number (specification-side decomposition of `pageResults`). -/
def lineResults (pageNo : ℤ) (pattern : String) (case_sensitive : Bool)
    (gap : ℚ) (g : List TextBlock) : List SearchResult :=
  (lineMatches pattern case_sensitive gap g).map (fun r => ⟨pageNo, r.1, r.2⟩)

/-! ## Concrete documents used in the examples

These instantiate the spec's worked example (§8, blocks `First` and `page`)
and the counterexample configurations found while checking the claims. -/

/-- Block `First` with bbox (0,0,40,20), as in spec §8. -/
def bFirst : TextBlock := ⟨"First", ⟨0, 0, 40, 20⟩, 0, none, none⟩

/-- Block `page` with bbox (50,0,90,20), as in spec §8. -/
def bPage : TextBlock := ⟨"page", ⟨50, 0, 90, 20⟩, 0, none, none⟩

/-- Page 0 holding exactly `bFirst` and `bPage`. -/
def pageFP : Page := ⟨0, 100, 100, [bFirst, bPage], [], none⟩

/-- One-page document holding exactly `bFirst` and `bPage`. -/
def docFirstPage : Document := ⟨"doc.pdf", [pageFP], none⟩

/-- The merged block the `"First page"` search produces on `docFirstPage`,
paired with its provenance list. -/
def resFP : TextBlock × List TextBlock :=
  (⟨"First page", ⟨0, 0, 90, 20⟩, 0, none, none⟩, [bFirst, bPage])

/-- Document whose single page has no text blocks. -/
def docEmptyPage : Document := ⟨"doc.pdf", [⟨0, 10, 10, [], [], none⟩], none⟩

/-- A block carrying confidence and font info. -/
def bFontA : TextBlock :=
  ⟨"alpha", ⟨0, 0, 10, 10⟩, 0, some (9 / 10), some ⟨some "Arial", some 12, some 0, some 400⟩⟩

/-- A second block carrying the same font info as `bFontA`. -/
def bFontB : TextBlock :=
  ⟨"beta", ⟨12, 0, 20, 10⟩, 0, some (4 / 5), some ⟨some "Arial", some 12, some 0, some 400⟩⟩

/-- A wide block horizontally containing the whole line. -/
def bWide : TextBlock := ⟨"A", ⟨0, 0, 100, 10⟩, 0, none, none⟩

/-- A narrow block nested inside `bWide`'s horizontal extent. -/
def bNear : TextBlock := ⟨"B", ⟨5, 0, 6, 10⟩, 0, none, none⟩

/-- A block far (gap 2 from `bNear`) but still inside `bWide`'s extent. -/
def bFar : TextBlock := ⟨"C", ⟨8, 0, 9, 10⟩, 0, none, none⟩

/-- One-page document holding `bWide`, `bNear`, `bFar` on one line. -/
def docNested : Document := ⟨"doc.pdf", [⟨0, 100, 100, [bWide, bNear, bFar], [], none⟩], none⟩

/-- A block with negative `y0 = -3`, exercising Python `int()` truncation. -/
def bNegY : TextBlock := ⟨"x", ⟨0, -3, 1, 1⟩, 0, none, none⟩

/-! ## Coordinate converter (modelled from the spec)

Modelled from the spec: the converter implementation `xtra/base/coordinates.py`
(class `CoordinateConverter`) is not present under `src/` — only its import
sites and benchmark callers are.  Unit semantics follow spec §4.1: POINTS is
the native pivot, INCHES = points / 72, PIXELS = points × DPI / 72, and
NORMALIZED = value ÷ page dimension on the matching axis (page dimensions
given in points). -/

/-- Modelled from the spec: value in unit `u` expressed in points.  `dpi`
is the pixel density, `pw`/`ph` the page width/height in points, `isX`
selects the axis used by normalized coordinates. -/
def toPoints (u : CoordinateUnit) (dpi pw ph : ℚ) (isX : Bool) (v : ℚ) : ℚ :=
  match u with
  | .points => v
  | .inches => v * 72
  | .pixels => v * 72 / dpi
  | .normalized => v * (if isX then pw else ph)

/-- Modelled from the spec: value in points expressed in unit `u`. -/
def fromPoints (u : CoordinateUnit) (dpi pw ph : ℚ) (isX : Bool) (v : ℚ) : ℚ :=
  match u with
  | .points => v
  | .inches => v / 72
  | .pixels => v * dpi / 72
  | .normalized => v / (if isX then pw else ph)

/-- Modelled from the spec: `convert_value` of the coordinate converter,
translating one scalar from unit `u1` to unit `u2` through the points
pivot. -/
def convert_value (u1 u2 : CoordinateUnit) (dpi pw ph : ℚ) (isX : Bool) (v : ℚ) : ℚ :=
  fromPoints u2 dpi pw ph isX (toPoints u1 dpi pw ph isX v)

/-- Modelled from the spec: `convert_bbox` applies the scalar conversion to
all four coordinates, x-coordinates on the width axis and y-coordinates on
the height axis. -/
def convert_bbox (u1 u2 : CoordinateUnit) (dpi pw ph : ℚ) (bb : BBox) : BBox :=
  ⟨convert_value u1 u2 dpi pw ph true bb.x0,
   convert_value u1 u2 dpi pw ph false bb.y0,
   convert_value u1 u2 dpi pw ph true bb.x1,
   convert_value u1 u2 dpi pw ph false bb.y1⟩

/-! ## Helper lemmas: folded minima and maxima -/

theorem minOf_le_init (xs : List ℚ) (x : ℚ) : minOf x xs ≤ x := by
  induction xs generalizing x with
  | nil => exact le_refl x
  | cons y ys ih =>
      exact le_trans (ih (min x y)) (min_le_left x y)

theorem minOf_le_mem (xs : List ℚ) (x a : ℚ) (ha : a ∈ xs) : minOf x xs ≤ a := by
  induction xs generalizing x with
  | nil => cases ha
  | cons y ys ih =>
      rcases List.mem_cons.mp ha with h | h
      · subst h
        exact le_trans (minOf_le_init ys (min x a)) (min_le_right x a)
      · exact ih (min x y) h

theorem minOf_mem (xs : List ℚ) (x : ℚ) : minOf x xs = x ∨ minOf x xs ∈ xs := by
  induction xs generalizing x with
  | nil => exact Or.inl rfl
  | cons y ys ih =>
      rcases ih (min x y) with h | h
      · rcases min_cases x y with ⟨hm, _⟩ | ⟨hm, _⟩
        · exact Or.inl (by simpa [minOf, hm] using h)
        · refine Or.inr (List.mem_cons.mpr (Or.inl ?_))
          simpa [minOf, hm] using h
      · exact Or.inr (List.mem_cons.mpr (Or.inr h))

theorem init_le_maxOf (xs : List ℚ) (x : ℚ) : x ≤ maxOf x xs := by
  induction xs generalizing x with
  | nil => exact le_refl x
  | cons y ys ih =>
      exact le_trans (le_max_left x y) (ih (max x y))

theorem mem_le_maxOf (xs : List ℚ) (x a : ℚ) (ha : a ∈ xs) : a ≤ maxOf x xs := by
  induction xs generalizing x with
  | nil => cases ha
  | cons y ys ih =>
      rcases List.mem_cons.mp ha with h | h
      · subst h
        exact le_trans (le_max_right x a) (init_le_maxOf ys (max x a))
      · exact ih (max x y) h

theorem maxOf_mem (xs : List ℚ) (x : ℚ) : maxOf x xs = x ∨ maxOf x xs ∈ xs := by
  induction xs generalizing x with
  | nil => exact Or.inl rfl
  | cons y ys ih =>
      rcases ih (max x y) with h | h
      · rcases max_cases x y with ⟨hm, _⟩ | ⟨hm, _⟩
        · exact Or.inl (by simpa [maxOf, hm] using h)
        · refine Or.inr (List.mem_cons.mpr (Or.inl ?_))
          simpa [maxOf, hm] using h
      · exact Or.inr (List.mem_cons.mpr (Or.inr h))

theorem minOf_eq_init (xs : List ℚ) (x : ℚ) (h : ∀ a ∈ xs, x ≤ a) : minOf x xs = x := by
  rcases minOf_mem xs x with hm | hm
  · exact hm
  · exact le_antisymm (minOf_le_init xs x) (h _ hm)

/-! ## Helper lemmas: merged block bounds -/

theorem create_x0_le (run : List TextBlock) (b : TextBlock) (hb : b ∈ run) :
    (_create_merged_block run).bbox.x0 ≤ b.bbox.x0 := by
  match run with
  | [] => cases hb
  | [a] =>
      rcases List.mem_singleton.mp hb with rfl
      exact le_refl _
  | a :: c :: rest =>
      exact minOf_le_mem _ _ _ (List.mem_map_of_mem (fun t => t.bbox.x0) hb)

theorem create_le_x1 (run : List TextBlock) (b : TextBlock) (hb : b ∈ run) :
    b.bbox.x1 ≤ (_create_merged_block run).bbox.x1 := by
  match run with
  | [] => cases hb
  | [a] =>
      rcases List.mem_singleton.mp hb with rfl
      exact le_refl _
  | a :: c :: rest =>
      exact mem_le_maxOf _ _ _ (List.mem_map_of_mem (fun t => t.bbox.x1) hb)

theorem create_y0_le (run : List TextBlock) (b : TextBlock) (hb : b ∈ run) :
    (_create_merged_block run).bbox.y0 ≤ b.bbox.y0 := by
  match run with
  | [] => cases hb
  | [a] =>
      rcases List.mem_singleton.mp hb with rfl
      exact le_refl _
  | a :: c :: rest =>
      exact minOf_le_mem _ _ _ (List.mem_map_of_mem (fun t => t.bbox.y0) hb)

theorem create_le_y1 (run : List TextBlock) (b : TextBlock) (hb : b ∈ run) :
    b.bbox.y1 ≤ (_create_merged_block run).bbox.y1 := by
  match run with
  | [] => cases hb
  | [a] =>
      rcases List.mem_singleton.mp hb with rfl
      exact le_refl _
  | a :: c :: rest =>
      exact mem_le_maxOf _ _ _ (List.mem_map_of_mem (fun t => t.bbox.y1) hb)

theorem create_x0_mem (run : List TextBlock) (hne : run ≠ []) :
    ∃ a ∈ run, (_create_merged_block run).bbox.x0 = a.bbox.x0 := by
  match run with
  | [] => exact absurd rfl hne
  | [a] => exact ⟨a, List.mem_singleton_self a, rfl⟩
  | a :: c :: rest =>
      rcases minOf_mem ((a :: c :: rest).map (fun t => t.bbox.x0)) a.bbox.x0 with h | h
      · exact ⟨a, List.mem_cons_self a _, h⟩
      · rcases List.mem_map.mp h with ⟨t, ht, hteq⟩
        exact ⟨t, ht, hteq.symm⟩

theorem create_y0_mem (run : List TextBlock) (hne : run ≠ []) :
    ∃ a ∈ run, (_create_merged_block run).bbox.y0 = a.bbox.y0 := by
  match run with
  | [] => exact absurd rfl hne
  | [a] => exact ⟨a, List.mem_singleton_self a, rfl⟩
  | a :: c :: rest =>
      rcases minOf_mem ((a :: c :: rest).map (fun t => t.bbox.y0)) a.bbox.y0 with h | h
      · exact ⟨a, List.mem_cons_self a _, h⟩
      · rcases List.mem_map.mp h with ⟨t, ht, hteq⟩
        exact ⟨t, ht, hteq.symm⟩

theorem create_y1_mem (run : List TextBlock) (hne : run ≠ []) :
    ∃ a ∈ run, (_create_merged_block run).bbox.y1 = a.bbox.y1 := by
  match run with
  | [] => exact absurd rfl hne
  | [a] => exact ⟨a, List.mem_singleton_self a, rfl⟩
  | a :: c :: rest =>
      rcases maxOf_mem ((a :: c :: rest).map (fun t => t.bbox.y1)) a.bbox.y1 with h | h
      · exact ⟨a, List.mem_cons_self a _, h⟩
      · rcases List.mem_map.mp h with ⟨t, ht, hteq⟩
        exact ⟨t, ht, hteq.symm⟩

theorem create_x1_mem (run : List TextBlock) (hne : run ≠ []) :
    ∃ a ∈ run, (_create_merged_block run).bbox.x1 = a.bbox.x1 := by
  match run with
  | [] => exact absurd rfl hne
  | [a] => exact ⟨a, List.mem_singleton_self a, rfl⟩
  | a :: c :: rest =>
      rcases maxOf_mem ((a :: c :: rest).map (fun t => t.bbox.x1)) a.bbox.x1 with h | h
      · exact ⟨a, List.mem_cons_self a _, h⟩
      · rcases List.mem_map.mp h with ⟨t, ht, hteq⟩
        exact ⟨t, ht, hteq.symm⟩

/-! ## Helper lemmas: runs of the merge loop -/

theorem mergeAux_eq_runsAux (gap : ℚ) (l cur : List TextBlock) :
    mergeAux gap cur l = (runsAux gap cur l).map _create_merged_block := by
  induction l generalizing cur with
  | nil => rfl
  | cons blk rest ih =>
      match cur with
      | [] => simpa [mergeAux, runsAux] using ih [blk]
      | prev :: curtail =>
          by_cases h : blk.bbox.x0 - prev.bbox.x1 ≤ gap
          · simpa [mergeAux, runsAux, h] using ih (blk :: prev :: curtail)
          · simpa [mergeAux, runsAux, h] using ih [blk]

theorem merge_eq_gapRuns (blocks : List TextBlock) (gap : ℚ) :
    _merge_blocks_by_gap blocks gap
      = (gapRuns gap (sortByX0 blocks)).map _create_merged_block := by
  unfold _merge_blocks_by_gap gapRuns
  match sortByX0 blocks with
  | [] => rfl
  | b :: rest => exact mergeAux_eq_runsAux gap rest [b]

theorem runsAux_flatten (gap : ℚ) (l cur : List TextBlock) :
    (runsAux gap cur l).flatten = cur.reverse ++ l := by
  induction l generalizing cur with
  | nil => simp [runsAux]
  | cons blk rest ih =>
      match cur with
      | [] => simpa [runsAux] using ih [blk]
      | prev :: curtail =>
          by_cases h : blk.bbox.x0 - prev.bbox.x1 ≤ gap
          · rw [runsAux, if_pos h, ih (blk :: prev :: curtail)]
            simp
          · rw [runsAux, if_neg h, List.flatten_cons, ih [blk]]
            simp

theorem gapRuns_flatten (gap : ℚ) (l : List TextBlock) :
    (gapRuns gap l).flatten = l := by
  match l with
  | [] => rfl
  | b :: rest => simpa [gapRuns] using runsAux_flatten gap rest [b]

theorem runsAux_ne_nil_mem (gap : ℚ) (l cur : List TextBlock) (hcur : cur ≠ [])
    (r : List TextBlock) (hr : r ∈ runsAux gap cur l) : r ≠ [] := by
  induction l generalizing cur with
  | nil =>
      rw [runsAux] at hr
      rcases List.mem_singleton.mp hr with rfl
      simpa using hcur
  | cons blk rest ih =>
      match cur with
      | [] => exact absurd rfl hcur
      | prev :: curtail =>
          by_cases h : blk.bbox.x0 - prev.bbox.x1 ≤ gap
          · rw [runsAux, if_pos h] at hr
            exact ih (blk :: prev :: curtail) (by simp) hr
          · rw [runsAux, if_neg h] at hr
            rcases List.mem_cons.mp hr with rfl | hmem
            · simp
            · exact ih [blk] (by simp) hmem

theorem gapRuns_ne_nil_mem (gap : ℚ) (l : List TextBlock)
    (r : List TextBlock) (hr : r ∈ gapRuns gap l) : r ≠ [] := by
  match l with
  | [] => cases hr
  | b :: rest => exact runsAux_ne_nil_mem gap rest [b] (by simp) r hr

theorem runsAux_chain_within (gap : ℚ) (l : List TextBlock) :
    ∀ cur, cur.Chain' (fun x y => x.bbox.x0 - y.bbox.x1 ≤ gap) →
    ∀ r ∈ runsAux gap cur l, r.Chain' (fun a b => b.bbox.x0 - a.bbox.x1 ≤ gap) := by
  induction l with
  | nil =>
      intro cur hcur r hr
      rw [runsAux] at hr
      rcases List.mem_singleton.mp hr with rfl
      exact List.chain'_reverse.mpr hcur
  | cons blk rest ih =>
      intro cur hcur r hr
      match cur with
      | [] =>
          rw [runsAux] at hr
          exact ih [blk] (List.chain'_singleton _) r hr
      | prev :: curtail =>
          by_cases h : blk.bbox.x0 - prev.bbox.x1 ≤ gap
          · rw [runsAux, if_pos h] at hr
            exact ih (blk :: prev :: curtail) (List.Chain'.cons h hcur) r hr
          · rw [runsAux, if_neg h] at hr
            rcases List.mem_cons.mp hr with rfl | hmem
            · exact List.chain'_reverse.mpr hcur
            · exact ih [blk] (List.chain'_singleton _) r hmem

theorem runsAux_head (gap : ℚ) (l : List TextBlock) :
    ∀ cur, cur ≠ [] →
    ∃ r rs, runsAux gap cur l = r :: rs ∧ r.head? = cur.getLast? := by
  induction l with
  | nil =>
      intro cur _
      exact ⟨cur.reverse, [], rfl, List.head?_reverse cur⟩
  | cons blk rest ih =>
      intro cur hcur
      match cur with
      | [] => exact absurd rfl hcur
      | prev :: curtail =>
          by_cases h : blk.bbox.x0 - prev.bbox.x1 ≤ gap
          · obtain ⟨r, rs, heq, hhead⟩ := ih (blk :: prev :: curtail) (by simp)
            refine ⟨r, rs, ?_, ?_⟩
            · rw [runsAux, if_pos h]
              exact heq
            · rw [hhead]
              exact List.getLast?_cons_cons
          · refine ⟨(prev :: curtail).reverse, runsAux gap [blk] rest, ?_,
              List.head?_reverse (prev :: curtail)⟩
            rw [runsAux, if_neg h]

theorem runsAux_chain_boundary (gap : ℚ) (l : List TextBlock) :
    ∀ cur, cur ≠ [] →
    (runsAux gap cur l).Chain'
      (fun r s => ∀ a b, r.getLast? = some a → s.head? = some b →
        gap < b.bbox.x0 - a.bbox.x1) := by
  induction l with
  | nil =>
      intro cur _
      rw [runsAux]
      exact List.chain'_singleton _
  | cons blk rest ih =>
      intro cur hcur
      match cur with
      | [] => exact absurd rfl hcur
      | prev :: curtail =>
          by_cases h : blk.bbox.x0 - prev.bbox.x1 ≤ gap
          · rw [runsAux, if_pos h]
            exact ih (blk :: prev :: curtail) (by simp)
          · rw [runsAux, if_neg h]
            refine List.chain'_cons'.mpr ⟨?_, ih [blk] (by simp)⟩
            intro y hy a b hlast hhead
            obtain ⟨r, rs, heq, hrhead⟩ := runsAux_head gap rest [blk] (by simp)
            rw [heq] at hy
            simp only [List.head?_cons, Option.mem_def, Option.some.injEq] at hy
            subst hy
            rw [hrhead] at hhead
            simp only [List.getLast?_singleton, Option.some.injEq] at hhead
            subst hhead
            rw [List.getLast?_reverse] at hlast
            simp only [List.head?_cons, Option.some.injEq] at hlast
            subst hlast
            exact lt_of_not_le h

/-! ## Helper lemmas: sorting -/

theorem sortByX0_sorted (l : List TextBlock) : (sortByX0 l).Pairwise leX0 :=
  List.sorted_insertionSort leX0 l

theorem sortByX0_perm (l : List TextBlock) : (sortByX0 l).Perm l :=
  List.perm_insertionSort leX0 l

theorem sortByX0_idem (l : List TextBlock) : sortByX0 (sortByX0 l) = sortByX0 l :=
  List.Sorted.insertionSort_eq (sortByX0_sorted l)

theorem gapRuns_pairwise (gap : ℚ) (l : List TextBlock) (hl : l.Pairwise leX0) :
    (∀ r ∈ gapRuns gap l, r.Pairwise leX0) ∧
    (gapRuns gap l).Pairwise (fun r s => ∀ x ∈ r, ∀ y ∈ s, leX0 x y) := by
  have h : ((gapRuns gap l).flatten).Pairwise leX0 := by
    rw [gapRuns_flatten]
    exact hl
  exact List.pairwise_flatten.mp h

theorem merged_pairwise (gap : ℚ) (l : List TextBlock) (hl : l.Pairwise leX0) :
    ((gapRuns gap l).map _create_merged_block).Pairwise leX0 := by
  rw [List.pairwise_map]
  refine ((gapRuns_pairwise gap l hl).2).imp_of_mem ?_
  intro r s hr hs hcross
  obtain ⟨a, ha, hax⟩ := create_x0_mem r (gapRuns_ne_nil_mem gap l r hr)
  obtain ⟨b, hb, hbx⟩ := create_x0_mem s (gapRuns_ne_nil_mem gap l s hs)
  unfold leX0
  rw [hax, hbx]
  exact hcross a ha b hb

/-! ## Helper lemmas: line grouping -/

theorem mem_firstKeys (l : List ℤ) (k : ℤ) : k ∈ firstKeys l ↔ k ∈ l := by
  induction l with
  | nil => simp [firstKeys]
  | cons a rest ih =>
      by_cases hk : k = a
      · subst hk
        simp [firstKeys]
      · simp [firstKeys, List.mem_filter, hk, ih]

theorem lineGroups_cover (blocks : List TextBlock) (lg : ℚ) (b : TextBlock)
    (hb : b ∈ blocks) : ∃ g ∈ lineGroups blocks lg, b ∈ g := by
  refine ⟨blocks.filter (fun x => decide (lineKey lg x = lineKey lg b)), ?_, ?_⟩
  · unfold lineGroups
    refine List.mem_map.mpr ⟨lineKey lg b, ?_, rfl⟩
    exact (mem_firstKeys _ _).mpr (List.mem_map_of_mem (lineKey lg) hb)
  · exact List.mem_filter.mpr ⟨hb, by simp⟩

theorem lineGroups_sub (blocks : List TextBlock) (lg : ℚ) (g : List TextBlock)
    (hg : g ∈ lineGroups blocks lg) : ∀ b ∈ g, b ∈ blocks := by
  unfold lineGroups at hg
  rcases List.mem_map.mp hg with ⟨k, _, rfl⟩
  intro b hb
  exact (List.mem_filter.mp hb).1

theorem lineGroups_key_eq (blocks : List TextBlock) (lg : ℚ) (g : List TextBlock)
    (hg : g ∈ lineGroups blocks lg) :
    ∀ b ∈ g, ∀ b2 ∈ g, lineKey lg b = lineKey lg b2 := by
  unfold lineGroups at hg
  rcases List.mem_map.mp hg with ⟨k, _, rfl⟩
  intro b hb b2 hb2
  have h1 := (List.mem_filter.mp hb).2
  have h2 := (List.mem_filter.mp hb2).2
  simp only [decide_eq_true_eq] at h1 h2
  rw [h1, h2]

theorem lineKey_zero (b : TextBlock) : lineKey 0 b = 0 := by
  simp [lineKey]

theorem firstKeys_const (l : List ℤ) (c : ℤ) (h : ∀ k ∈ l, k = c) :
    l = [] ∨ firstKeys l = [c] := by
  induction l with
  | nil => exact Or.inl rfl
  | cons a rest ih =>
      refine Or.inr ?_
      have ha : a = c := h a (List.mem_cons_self a rest)
      subst ha
      rcases ih (fun k hk => h k (List.mem_cons_of_mem a hk)) with hrest | hrest
      · subst hrest
        rfl
      · rw [firstKeys, hrest]
        simp

theorem lineGroups_zero (blocks : List TextBlock) (hne : blocks ≠ []) :
    lineGroups blocks 0 = [blocks] := by
  unfold lineGroups
  have hkeys : ∀ k ∈ blocks.map (lineKey 0), k = 0 := by
    intro k hk
    rcases List.mem_map.mp hk with ⟨b, _, rfl⟩
    exact lineKey_zero b
  rcases firstKeys_const (blocks.map (lineKey 0)) 0 hkeys with hemp | hfk
  · exact absurd (List.map_eq_nil_iff.mp hemp) hne
  · rw [hfk]
    simp only [List.map_cons, List.map_nil, List.cons.injEq, and_true]
    refine List.filter_eq_self.mpr ?_
    intro b _
    simp [lineKey_zero]

/-! ## Helper lemmas: search structure -/

theorem pageResults_merge (p : Page) (pat : String) (cs : Bool) (gap lg : ℚ) :
    pageResults p pat cs (some gap) lg
      = ((lineGroups p.texts lg).map (lineResults p.page pat cs gap)).flatten := by
  unfold pageResults _search_blocks lineResults
  rw [List.map_flatMap, List.flatMap_def]

theorem pageResults_nomerge (p : Page) (pat : String) (cs : Bool) (lg : ℚ) :
    (pageResults p pat cs none lg).map (fun r => r.block)
      = p.texts.filter (fun b => patMatches pat cs b.text) := by
  unfold pageResults _search_blocks
  rw [List.map_map, List.map_map]
  simp [Function.comp_def]

theorem pageResults_page_eq (p : Page) (pat : String) (cs : Bool)
    (mg : Option ℚ) (lg : ℚ) :
    ∀ r ∈ pageResults p pat cs mg lg, r.page = p.page := by
  intro r hr
  unfold pageResults at hr
  rcases List.mem_map.mp hr with ⟨x, _, rfl⟩
  rfl

theorem lineResults_blocks_pairwise (pageNo : ℤ) (pat : String) (cs : Bool)
    (gap : ℚ) (g : List TextBlock) :
    ((lineResults pageNo pat cs gap g).map (fun r => r.block)).Pairwise leX0 := by
  have hm : (_merge_blocks_by_gap (sortByX0 g) gap).Pairwise leX0 := by
    rw [merge_eq_gapRuns, sortByX0_idem]
    exact merged_pairwise gap (sortByX0 g) (sortByX0_sorted g)
  have hf := hm.filter (fun m => patMatches pat cs m.text)
  unfold lineResults lineMatches
  rw [List.map_map, List.map_map]
  simpa [Function.comp_def] using hf

theorem lineMatches_mem (pat : String) (cs : Bool) (gap : ℚ) (g : List TextBlock)
    (res : TextBlock × List TextBlock) (hres : res ∈ lineMatches pat cs gap g) :
    ∃ run ∈ gapRuns gap (sortByX0 g),
      res.1 = _create_merged_block run ∧
      res.2 = (sortByX0 g).filter (fun b => _blocks_overlap b res.1) ∧
      patMatches pat cs res.1.text = true := by
  unfold lineMatches at hres
  obtain ⟨m, hm, heq⟩ := List.mem_map.mp hres
  subst heq
  have hm2 := List.mem_filter.mp hm
  have hm3 : m ∈ (gapRuns gap (sortByX0 g)).map _create_merged_block := by
    have := hm2.1
    rwa [merge_eq_gapRuns, sortByX0_idem] at this
  obtain ⟨run, hrun, heq2⟩ := List.mem_map.mp hm3
  subst heq2
  exact ⟨run, hrun, rfl, rfl, hm2.2⟩

theorem gapRuns_mem_sub (gap : ℚ) (l : List TextBlock) (run : List TextBlock)
    (hrun : run ∈ gapRuns gap l) : ∀ b ∈ run, b ∈ l := by
  intro b hb
  rw [← gapRuns_flatten gap l]
  exact List.mem_flatten.mpr ⟨run, hrun, hb⟩

theorem run_mem_overlap (run : List TextBlock) (b : TextBlock) (hb : b ∈ run)
    (hwf : b.bbox.x0 ≤ b.bbox.x1) :
    _blocks_overlap b (_create_merged_block run) = true := by
  have h1 : (_create_merged_block run).bbox.x0 ≤ b.bbox.x1 :=
    le_trans (create_x0_le run b hb) hwf
  have h2 : b.bbox.x0 ≤ (_create_merged_block run).bbox.x1 :=
    le_trans hwf (create_le_x1 run b hb)
  have hor : (decide (b.bbox.x1 < (_create_merged_block run).bbox.x0)
      || decide (b.bbox.x0 > (_create_merged_block run).bbox.x1)) = false := by
    rw [Bool.or_eq_false_iff]
    refine ⟨?_, ?_⟩ <;> rw [decide_eq_false_iff_not]
    · exact not_lt.mpr h1
    · exact not_lt.mpr h2
  unfold _blocks_overlap
  rw [hor]
  rfl

/-! ## Helper lemmas: coordinate conversion -/

theorem toPoints_fromPoints (u : CoordinateUnit) (dpi pw ph v : ℚ) (isX : Bool)
    (hd : dpi ≠ 0) (hw : pw ≠ 0) (hh : ph ≠ 0) :
    toPoints u dpi pw ph isX (fromPoints u dpi pw ph isX v) = v := by
  cases u with
  | points => rfl
  | inches =>
      unfold toPoints fromPoints
      field_simp
  | pixels =>
      unfold toPoints fromPoints
      field_simp
  | normalized =>
      unfold toPoints fromPoints
      cases isX with
      | true =>
          simp only [if_true]
          field_simp
      | false =>
          simp only [if_false]
          field_simp

theorem fromPoints_toPoints (u : CoordinateUnit) (dpi pw ph v : ℚ) (isX : Bool)
    (hd : dpi ≠ 0) (hw : pw ≠ 0) (hh : ph ≠ 0) :
    fromPoints u dpi pw ph isX (toPoints u dpi pw ph isX v) = v := by
  cases u with
  | points => rfl
  | inches =>
      unfold toPoints fromPoints
      field_simp
  | pixels =>
      unfold toPoints fromPoints
      field_simp
  | normalized =>
      unfold toPoints fromPoints
      cases isX with
      | true =>
          simp only [if_true]
          field_simp
      | false =>
          simp only [if_false]
          field_simp

/-! ## Helper lemmas: search totality -/

theorem flatMap_pages_filter (l : List Page) (tgt : List ℤ)
    (f : Page → List SearchResult) :
    (l.flatMap (fun p => if p.page ∈ tgt then f p else []))
      = (l.filter (fun p => decide (p.page ∈ tgt))).flatMap f := by
  induction l with
  | nil => rfl
  | cons p rest ih =>
      by_cases h : p.page ∈ tgt
      · simp [List.flatMap_cons, List.filter_cons, h, ih]
      · simp [List.flatMap_cons, List.filter_cons, h, ih]

theorem pageResults_empty (p : Page) (pat : String) (cs : Bool)
    (mg : Option ℚ) (lg : ℚ) (hp : p.texts = []) :
    pageResults p pat cs mg lg = [] := by
  unfold pageResults _search_blocks
  cases mg with
  | none => rw [hp]; rfl
  | some gap => rw [hp]; rfl

theorem search_block_matched (doc : Document) (pat : String) (cs : Bool)
    (pg : Option (List ℤ)) (mg : Option ℚ) (lg : ℚ) :
    ∀ r ∈ Document.search doc pat cs pg mg lg,
      patMatches pat cs r.block.text = true := by
  intro r hr
  unfold Document.search at hr
  rcases List.mem_flatMap.mp hr with ⟨p, _, hrp⟩
  have hrp2 : r ∈ pageResults p pat cs mg lg := by
    cases pg with
    | none => exact hrp
    | some tgt =>
        by_cases h : p.page ∈ tgt
        · simpa [h] using hrp
        · simp [h] at hrp
  unfold pageResults at hrp2
  obtain ⟨x, hx, heq⟩ := List.mem_map.mp hrp2
  subst heq
  unfold _search_blocks at hx
  cases mg with
  | none =>
      obtain ⟨b, hb, heqb⟩ := List.mem_map.mp hx
      have := (List.mem_filter.mp hb).2
      rw [← heqb]
      simpa using this
  | some gap =>
      rcases List.mem_flatMap.mp hx with ⟨g, _, hxg⟩
      obtain ⟨run, _, _, _, hmatch⟩ := lineMatches_mem pat cs gap g x hxg
      exact hmatch

/-! ## Claim theorems -/

/-- Claim C1: on a page holding exactly the blocks `"First"` (bbox 0,0,40,20)
and `"page"` (bbox 50,0,90,20), `Document.search "First page"` with
`merge_gap = 15` returns exactly one result: the merged block `"First page"`
with bbox (0,0,90,20) on page 0, whose `original_blocks` are the two original
blocks in left-to-right order; the same search without `merge_gap` returns no
result. -/
theorem search_first_page_example :
    Document.search docFirstPage "First page" true none (some 15) 5
        = [⟨0, ⟨"First page", ⟨0, 0, 90, 20⟩, 0, none, none⟩, [bFirst, bPage]⟩]
      ∧ Document.search docFirstPage "First page" true none none 5 = [] := by
  constructor
  · with_unfolding_all decide
  · with_unfolding_all decide

/-- Claim C4: `_merge_blocks_by_gap` closes exactly the runs computed by
`gapRuns` on the x0-sorted blocks: the runs concatenate back to the sorted
list, are nonempty, consecutive blocks inside one run always satisfy
`current.x0 - previous.x1 ≤ gap` (so an exactly-equal gap and any negative
gap merge), and at every boundary between two runs the gap strictly exceeds
`merge_gap`. -/
theorem merge_gap_boundary (gap : ℚ) (blocks : List TextBlock) :
    _merge_blocks_by_gap blocks gap
        = (gapRuns gap (sortByX0 blocks)).map _create_merged_block
      ∧ (gapRuns gap (sortByX0 blocks)).flatten = sortByX0 blocks
      ∧ (∀ r ∈ gapRuns gap (sortByX0 blocks),
           r ≠ [] ∧ r.Chain' (fun a b => b.bbox.x0 - a.bbox.x1 ≤ gap))
      ∧ (gapRuns gap (sortByX0 blocks)).Chain'
          (fun r s => ∀ a b, r.getLast? = some a → s.head? = some b →
            gap < b.bbox.x0 - a.bbox.x1) := by
  refine ⟨merge_eq_gapRuns blocks gap, gapRuns_flatten gap _, ?_, ?_⟩
  · intro r hr
    refine ⟨gapRuns_ne_nil_mem gap _ r hr, ?_⟩
    rcases hs : sortByX0 blocks with _ | ⟨b, rest⟩
    · rw [hs] at hr
      cases hr
    · rw [hs] at hr
      simp only [gapRuns] at hr
      exact runsAux_chain_within gap rest [b] (List.chain'_singleton _) r hr
  · rcases hs : sortByX0 blocks with _ | ⟨b, rest⟩
    · exact List.chain'_nil
    · simp only [gapRuns]
      exact runsAux_chain_boundary gap rest [b] (by simp)

/-- Claim C4 witness: on the spec §8 pair (gap 10 between the blocks,
threshold 15) the single run is `[bFirst, bPage]` and its inner chain
condition holds. -/
theorem merge_gap_boundary_witness :
    ([bFirst, bPage] : List TextBlock) ≠ []
      ∧ [bFirst, bPage].Chain' (fun a b => b.bbox.x0 - a.bbox.x1 ≤ 15) :=
  (merge_gap_boundary 15 [bFirst, bPage]).2.2.1 [bFirst, bPage]
    (by with_unfolding_all decide)

/-- Claim C5: a run of length 1 passes through `_create_merged_block` (and
the whole of `_merge_blocks_by_gap`) unchanged — confidence and font info
included; a run of length ≥ 2 is synthesized with the texts joined by single
spaces in run order, the bbox equal to the coordinate-wise union (the min of
the x0/y0 and the max of the x1/y1 actually attained by the run), the first
block's rotation, and no confidence. -/
theorem merged_block_synthesis :
    (∀ b : TextBlock, _create_merged_block [b] = b)
      ∧ (∀ (b : TextBlock) (gap : ℚ), _merge_blocks_by_gap [b] gap = [b])
      ∧ (∀ (b c : TextBlock) (rest : List TextBlock),
          (_create_merged_block (b :: c :: rest)).text
              = String.intercalate " " ((b :: c :: rest).map (fun t => t.text))
            ∧ (∃ a ∈ b :: c :: rest,
                (_create_merged_block (b :: c :: rest)).bbox.x0 = a.bbox.x0)
            ∧ (∀ a ∈ b :: c :: rest,
                (_create_merged_block (b :: c :: rest)).bbox.x0 ≤ a.bbox.x0)
            ∧ (∃ a ∈ b :: c :: rest,
                (_create_merged_block (b :: c :: rest)).bbox.y0 = a.bbox.y0)
            ∧ (∀ a ∈ b :: c :: rest,
                (_create_merged_block (b :: c :: rest)).bbox.y0 ≤ a.bbox.y0)
            ∧ (∃ a ∈ b :: c :: rest,
                (_create_merged_block (b :: c :: rest)).bbox.x1 = a.bbox.x1)
            ∧ (∀ a ∈ b :: c :: rest,
                a.bbox.x1 ≤ (_create_merged_block (b :: c :: rest)).bbox.x1)
            ∧ (∃ a ∈ b :: c :: rest,
                (_create_merged_block (b :: c :: rest)).bbox.y1 = a.bbox.y1)
            ∧ (∀ a ∈ b :: c :: rest,
                a.bbox.y1 ≤ (_create_merged_block (b :: c :: rest)).bbox.y1)
            ∧ (_create_merged_block (b :: c :: rest)).rotation = b.rotation
            ∧ (_create_merged_block (b :: c :: rest)).confidence = none) := by
  refine ⟨fun b => rfl, fun b gap => rfl, ?_⟩
  intro b c rest
  refine ⟨rfl, ?_, ?_, ?_, ?_, ?_, ?_, ?_, ?_, rfl, rfl⟩
  · exact create_x0_mem (b :: c :: rest) (by simp)
  · exact fun a ha => create_x0_le (b :: c :: rest) a ha
  · exact create_y0_mem (b :: c :: rest) (by simp)
  · exact fun a ha => create_y0_le (b :: c :: rest) a ha
  · exact create_x1_mem (b :: c :: rest) (by simp)
  · exact fun a ha => create_le_x1 (b :: c :: rest) a ha
  · exact create_y1_mem (b :: c :: rest) (by simp)
  · exact fun a ha => create_le_y1 (b :: c :: rest) a ha

/-- Claim C5 witness: concrete two-block run. -/
theorem merged_block_synthesis_witness :
    (_create_merged_block [bFirst, bPage]).bbox.x0 ≤ bPage.bbox.x0
      ∧ (_create_merged_block [bFirst, bPage]).confidence = none :=
  ⟨(merged_block_synthesis.2.2 bFirst bPage []).2.2.1 bPage (by decide),
   (merged_block_synthesis.2.2 bFirst bPage []).2.2.2.2.2.2.2.2.2.2⟩

/-- Claim C10: a merged run of length ≥ 2 carries no font info (and no
confidence), whatever the contributing blocks carried. -/
theorem merged_block_font_dropped :
    ∀ blocks : List TextBlock, 2 ≤ blocks.length →
      (_create_merged_block blocks).font_info = none
        ∧ (_create_merged_block blocks).confidence = none := by
  intro blocks h
  match blocks with
  | [] => simp at h
  | [b] => simp at h
  | b :: c :: rest => exact ⟨rfl, rfl⟩

/-- Claim C10 witness: two blocks sharing identical font info still merge to
a block without font info. -/
theorem merged_block_font_dropped_witness :
    (_create_merged_block [bFontA, bFontB]).font_info = none
      ∧ (_create_merged_block [bFontA, bFontB]).confidence = none :=
  merged_block_font_dropped [bFontA, bFontB] (by decide)

/-- Claim C6 counterexample: the code's line key is Python `int()`
(truncation toward zero), not `floor`: for a block with `y0 = -3` and
`line_gap = 5` the code computes key `0` while `floor(-3/5) = -1`. -/
theorem lineKey_floor_counterexample :
    lineKey 5 bNegY = 0 ∧ ⌊bNegY.bbox.y0 / 5⌋ = -1 ∧ ¬ lineKey 5 bNegY = ⌊bNegY.bbox.y0 / 5⌋ := by
  refine ⟨?_, ?_, ?_⟩
  · with_unfolding_all decide
  · with_unfolding_all decide
  · with_unfolding_all decide

/-- Claim C6 (amended): for `line_gap > 0` the line key is
`int(y0 / line_gap)` truncated toward zero — this equals
`floor(y0 / line_gap)` whenever `y0 ≥ 0` and equals the ceiling for negative
`y0` — and two blocks of a page share a line group exactly when these keys
agree; a `line_gap` of `0` puts the whole page into one single group rather
than raising an error. -/
theorem lineKey_truncation_grouping :
    (∀ (lg : ℚ) (b : TextBlock), 0 < lg → lineKey lg b = truncInt (b.bbox.y0 / lg))
      ∧ (∀ (lg : ℚ) (b : TextBlock), 0 < lg → 0 ≤ b.bbox.y0 →
          lineKey lg b = ⌊b.bbox.y0 / lg⌋)
      ∧ (∀ (lg : ℚ) (b : TextBlock), 0 < lg → b.bbox.y0 < 0 →
          lineKey lg b = ⌈b.bbox.y0 / lg⌉)
      ∧ (∀ b : TextBlock, lineKey 0 b = 0)
      ∧ (∀ blocks : List TextBlock, blocks ≠ [] → lineGroups blocks 0 = [blocks])
      ∧ (∀ (blocks : List TextBlock) (lg : ℚ) (b b2 : TextBlock),
          b ∈ blocks → b2 ∈ blocks →
          ((∃ g ∈ lineGroups blocks lg, b ∈ g ∧ b2 ∈ g)
            ↔ lineKey lg b = lineKey lg b2)) := by
  refine ⟨?_, ?_, ?_, lineKey_zero, lineGroups_zero, ?_⟩
  · intro lg b h
    simp [lineKey, h]
  · intro lg b h hy
    have hq : 0 ≤ b.bbox.y0 / lg := div_nonneg hy (le_of_lt h)
    simp [lineKey, truncInt, h, hq]
  · intro lg b h hy
    have hq : b.bbox.y0 / lg < 0 := div_neg_of_neg_of_pos hy h
    simp [lineKey, truncInt, h, not_le.mpr hq]
  · intro blocks lg b b2 hb hb2
    constructor
    · rintro ⟨g, hg, hbg, hb2g⟩
      exact lineGroups_key_eq blocks lg g hg b hbg b2 hb2g
    · intro hkey
      refine ⟨blocks.filter (fun x => decide (lineKey lg x = lineKey lg b)), ?_, ?_, ?_⟩
      · unfold lineGroups
        refine List.mem_map.mpr ⟨lineKey lg b, ?_, rfl⟩
        exact (mem_firstKeys _ _).mpr (List.mem_map_of_mem (lineKey lg) hb)
      · exact List.mem_filter.mpr ⟨hb, by simp⟩
      · exact List.mem_filter.mpr ⟨hb2, by simp [hkey]⟩

/-- Claim C6 witness: for nonnegative `y0` the key does coincide with the
floor. -/
theorem lineKey_truncation_grouping_witness :
    lineKey 5 bFirst = ⌊bFirst.bbox.y0 / 5⌋ :=
  lineKey_truncation_grouping.2.1 5 bFirst (by norm_num)
    (by with_unfolding_all decide)

/-- Claim C7 counterexample: `BBox` has no validator — a bbox constructed
with `x1 < x0` and `y1 < y0` is accepted silently and keeps its out-of-order
coordinates. -/
theorem bbox_no_validation_counterexample :
    (BBox.mk 1 1 0 0).x1 < (BBox.mk 1 1 0 0).x0
      ∧ (BBox.mk 1 1 0 0).y1 < (BBox.mk 1 1 0 0).y0 := by
  constructor
  · decide
  · decide

/-- Claim C7 (amended): `BBox` construction stores its four coordinates
verbatim, performing no rejection or normalization; the invariant
`x1 ≥ x0 ∧ y1 ≥ y0` instead holds for every bbox the system synthesizes:
polygon reduction (min/max of the vertex coordinates) always satisfies it,
and a merged block satisfies it whenever every contributing block does. -/
theorem bbox_invariant_synthesis :
    (∀ x0 y0 x1 y1 : ℚ,
        (BBox.mk x0 y0 x1 y1).x0 = x0 ∧ (BBox.mk x0 y0 x1 y1).y0 = y0
          ∧ (BBox.mk x0 y0 x1 y1).x1 = x1 ∧ (BBox.mk x0 y0 x1 y1).y1 = y1)
      ∧ (∀ (p : ℚ × ℚ) (ps : List (ℚ × ℚ)),
          (polygonToBBox (p :: ps)).x0 ≤ (polygonToBBox (p :: ps)).x1
            ∧ (polygonToBBox (p :: ps)).y0 ≤ (polygonToBBox (p :: ps)).y1)
      ∧ (∀ run : List TextBlock, run ≠ [] →
          (∀ b ∈ run, b.bbox.x0 ≤ b.bbox.x1 ∧ b.bbox.y0 ≤ b.bbox.y1) →
          (_create_merged_block run).bbox.x0 ≤ (_create_merged_block run).bbox.x1
            ∧ (_create_merged_block run).bbox.y0 ≤ (_create_merged_block run).bbox.y1) := by
  refine ⟨fun x0 y0 x1 y1 => ⟨rfl, rfl, rfl, rfl⟩, ?_, ?_⟩
  · intro p ps
    constructor
    · exact le_trans (minOf_le_init (ps.map Prod.fst) p.1)
        (init_le_maxOf (ps.map Prod.fst) p.1)
    · exact le_trans (minOf_le_init (ps.map Prod.snd) p.2)
        (init_le_maxOf (ps.map Prod.snd) p.2)
  · intro run hne hw
    obtain ⟨b, hb⟩ : ∃ b, b ∈ run := by
      cases run with
      | nil => exact absurd rfl hne
      | cons x xs => exact ⟨x, List.mem_cons_self x xs⟩
    exact ⟨le_trans (create_x0_le run b hb)
        (le_trans (hw b hb).1 (create_le_x1 run b hb)),
      le_trans (create_y0_le run b hb)
        (le_trans (hw b hb).2 (create_le_y1 run b hb))⟩

/-- Claim C7 witness: concrete nonempty run of well-formed blocks. -/
theorem bbox_invariant_synthesis_witness :
    (_create_merged_block [bFirst, bPage]).bbox.x0
        ≤ (_create_merged_block [bFirst, bPage]).bbox.x1
      ∧ (_create_merged_block [bFirst, bPage]).bbox.y0
        ≤ (_create_merged_block [bFirst, bPage]).bbox.y1 :=
  bbox_invariant_synthesis.2.2 [bFirst, bPage] (by decide) (by decide)

/-- Claim C2 counterexample: provenance is computed by horizontal overlap
with the merged bbox, not by run membership.  On one line holding
`"A"` (0–100), `"B"` (5–6) and `"C"` (8–9) with `merge_gap = 1`, the blocks
`A` and `B` merge into `"A B"` while `C` stays separate; yet the single
result for pattern `"A B"` reports `original_blocks` `["A", "B", "C"]` —
block `C` never contributed to the matched text. -/
theorem search_provenance_counterexample :
    (Document.search docNested "A B" true none (some 1) 5).map
        (fun r => (r.block.text, r.original_blocks.map (fun b => b.text)))
      = [("A B", ["A", "B", "C"])] := by
  with_unfolding_all decide

/-- Claim C2 (amended): when `merge_gap` is set, each result's
`original_blocks` is the x0-sorted list of the same-line blocks whose
horizontal extent overlaps the merged block's bbox — a superset of the
blocks whose texts were joined (all run members appear in it, in ascending
x0 order, but further same-line blocks overlapping the merged bbox may
appear too); without `merge_gap`, `original_blocks` is exactly the
one-element list holding the matching block itself. -/
theorem search_provenance :
    (∀ (blocks : List TextBlock) (pat : String) (cs : Bool) (lg gap : ℚ),
        (∀ b ∈ blocks, b.bbox.x0 ≤ b.bbox.x1) →
        ∀ res ∈ _search_blocks blocks pat cs (some gap) lg,
          ∃ g ∈ lineGroups blocks lg, ∃ run ∈ gapRuns gap (sortByX0 g),
            res.1 = _create_merged_block run
              ∧ res.2 = (sortByX0 g).filter (fun b => _blocks_overlap b res.1)
              ∧ (∀ b ∈ run, b ∈ res.2)
              ∧ res.2.Pairwise leX0
              ∧ (∀ b ∈ res.2, b ∈ g))
      ∧ (∀ (blocks : List TextBlock) (pat : String) (cs : Bool) (lg : ℚ),
          ∀ res ∈ _search_blocks blocks pat cs none lg, res.2 = [res.1]) := by
  constructor
  · intro blocks pat cs lg gap hwf res hres
    unfold _search_blocks at hres
    rcases List.mem_flatMap.mp hres with ⟨g, hgmem, hresg⟩
    obtain ⟨run, hrun, h1, h2, _⟩ := lineMatches_mem pat cs gap g res hresg
    refine ⟨g, hgmem, run, hrun, h1, h2, ?_, ?_, ?_⟩
    · intro b hb
      have hbg : b ∈ sortByX0 g := gapRuns_mem_sub gap (sortByX0 g) run hrun b hb
      have hbblocks : b ∈ blocks :=
        lineGroups_sub blocks lg g hgmem b ((sortByX0_perm g).mem_iff.mp hbg)
      have hover : _blocks_overlap b res.1 = true := by
        rw [h1]
        exact run_mem_overlap run b hb (hwf b hbblocks)
      rw [h2]
      exact List.mem_filter.mpr ⟨hbg, hover⟩
    · rw [h2]
      exact (sortByX0_sorted g).filter _
    · intro b hb
      rw [h2] at hb
      exact (sortByX0_perm g).mem_iff.mp (List.mem_filter.mp hb).1
  · intro blocks pat cs lg res hres
    unfold _search_blocks at hres
    obtain ⟨b, _, heq⟩ := List.mem_map.mp hres
    subst heq
    rfl

/-- Claim C2 witness: instantiation on the spec §8 example. -/
theorem search_provenance_witness :
    ∃ g ∈ lineGroups [bFirst, bPage] 5, ∃ run ∈ gapRuns 15 (sortByX0 g),
      resFP.1 = _create_merged_block run
        ∧ resFP.2 = (sortByX0 g).filter (fun b => _blocks_overlap b resFP.1)
        ∧ (∀ b ∈ run, b ∈ resFP.2)
        ∧ resFP.2.Pairwise leX0
        ∧ (∀ b ∈ resFP.2, b ∈ g) :=
  search_provenance.1 [bFirst, bPage] "First page" true 5 15
    (by with_unfolding_all decide) resFP (by with_unfolding_all decide)

/-- Claim C3: document search emits results page by page in document page
order for every call — with no `pages` selection the result list is the
concatenation of the pages' result groups in document order, and with a
`pages` selection it is the concatenation over the selected pages (document
order preserved by the filter) — each result stamped with its page's number;
within a page, results without `merge_gap` are the page's matching blocks in
storage order, and with `merge_gap` the page's results are the concatenation
of the line groups' results in first-encounter group order, the merged
blocks of each line appearing in ascending x0 order. -/
theorem search_ordering :
    (∀ (doc : Document) (pat : String) (cs : Bool) (mg : Option ℚ) (lg : ℚ),
        Document.search doc pat cs none mg lg
            = (doc.pages.map (fun p => pageResults p pat cs mg lg)).flatten
          ∧ ∀ p ∈ doc.pages, ∀ r ∈ pageResults p pat cs mg lg, r.page = p.page)
      ∧ (∀ (p : Page) (pat : String) (cs : Bool) (lg : ℚ),
          (pageResults p pat cs none lg).map (fun r => r.block)
            = p.texts.filter (fun b => patMatches pat cs b.text))
      ∧ (∀ (p : Page) (pat : String) (cs : Bool) (gap lg : ℚ),
          pageResults p pat cs (some gap) lg
              = ((lineGroups p.texts lg).map (lineResults p.page pat cs gap)).flatten
            ∧ ∀ g ∈ lineGroups p.texts lg,
                ((lineResults p.page pat cs gap g).map (fun r => r.block)).Pairwise leX0)
      ∧ (∀ (doc : Document) (pat : String) (cs : Bool) (mg : Option ℚ) (lg : ℚ)
            (tgt : List ℤ),
          Document.search doc pat cs (some tgt) mg lg
            = ((doc.pages.filter (fun p => decide (p.page ∈ tgt))).map
                (fun p => pageResults p pat cs mg lg)).flatten) := by
  refine ⟨?_, pageResults_nomerge, ?_, ?_⟩
  · intro doc pat cs mg lg
    constructor
    · unfold Document.search
      rw [List.flatMap_def]
    · intro p _ r hr
      exact pageResults_page_eq p pat cs mg lg r hr
  · intro p pat cs gap lg
    exact ⟨pageResults_merge p pat cs gap lg,
      fun g _ => lineResults_blocks_pairwise p.page pat cs gap g⟩
  · intro doc pat cs mg lg tgt
    unfold Document.search
    rw [flatMap_pages_filter doc.pages tgt _, List.flatMap_def]

/-- Claim C3 witness: the merged line of the spec §8 example is emitted in
ascending x0 order, and a `pages = [0, 2]` selection decomposes into the
selected pages' result groups in document order. -/
theorem search_ordering_witness :
    ((lineResults pageFP.page "First page" true 15 [bFirst, bPage]).map
        (fun r => r.block)).Pairwise leX0
      ∧ Document.search docFirstPage "First page" true (some [0, 2]) (some 15) 5
          = ((docFirstPage.pages.filter (fun p => decide (p.page ∈ ([0, 2] : List ℤ)))).map
              (fun p => pageResults p "First page" true (some 15) 5)).flatten :=
  ⟨(search_ordering.2.2.1 pageFP "First page" true 15 5).2 [bFirst, bPage]
      (by with_unfolding_all decide),
   search_ordering.2.2.2 docFirstPage "First page" true (some 15) 5 [0, 2]⟩

/-- Claim C8: document search is a total function with silent page-filter
semantics: searching with a `pages` selection equals searching the document
restricted to the selected pages (so unknown indices contribute nothing),
an empty document or a document of empty pages yields `[]` for every
parameter combination, and every returned result's block text actually
matches the pattern (hence a pattern matching nothing yields `[]`). -/
theorem search_totality :
    (∀ (doc : Document) (pat : String) (cs : Bool) (mg : Option ℚ) (lg : ℚ)
        (tgt : List ℤ),
        Document.search doc pat cs (some tgt) mg lg
          = Document.search
              ⟨doc.path, doc.pages.filter (fun p => decide (p.page ∈ tgt)), doc.metadata⟩
              pat cs none mg lg)
      ∧ (∀ (path : String) (md : Option ExtractorMetadata) (pat : String) (cs : Bool)
            (pg : Option (List ℤ)) (mg : Option ℚ) (lg : ℚ),
          Document.search ⟨path, [], md⟩ pat cs pg mg lg = [])
      ∧ (∀ (doc : Document) (pat : String) (cs : Bool) (pg : Option (List ℤ))
            (mg : Option ℚ) (lg : ℚ),
          (∀ p ∈ doc.pages, p.texts = []) →
          Document.search doc pat cs pg mg lg = [])
      ∧ (∀ (doc : Document) (pat : String) (cs : Bool) (pg : Option (List ℤ))
            (mg : Option ℚ) (lg : ℚ),
          ∀ r ∈ Document.search doc pat cs pg mg lg,
            patMatches pat cs r.block.text = true) := by
  refine ⟨?_, ?_, ?_, search_block_matched⟩
  · intro doc pat cs mg lg tgt
    unfold Document.search
    exact flatMap_pages_filter doc.pages tgt _
  · intro path md pat cs pg mg lg
    cases pg <;> rfl
  · intro doc pat cs pg mg lg hp
    unfold Document.search
    refine List.flatMap_eq_nil_iff.mpr ?_
    intro p hpmem
    cases pg with
    | none => exact pageResults_empty p pat cs mg lg (hp p hpmem)
    | some tgt =>
        by_cases h : p.page ∈ tgt
        · simp [h, pageResults_empty p pat cs mg lg (hp p hpmem)]
        · simp [h]

/-- Claim C8 witness: a page with no blocks yields no results under merging
parameters. -/
theorem search_totality_witness :
    Document.search docEmptyPage "First" true none (some 2) 5 = [] :=
  search_totality.2.2.1 docEmptyPage "First" true none (some 2) 5 (by decide)

/-- Claim C9 (converter modelled from the spec, its source being absent from
the snapshot): scalar and bbox conversion between any two units — given a
positive DPI and positive page dimensions — compose exactly: converting
U1→U2→U1 returns the original value, and U1→U2 followed by U2→U3 equals
U1→U3 directly.  Over `ℚ` the round trip is exact, hence well within the
claimed 1e-6 relative tolerance. -/
theorem convert_roundtrip_chain :
    ∀ (u1 u2 u3 : CoordinateUnit) (dpi pw ph v : ℚ) (isX : Bool) (bb : BBox),
      0 < dpi → 0 < pw → 0 < ph →
      convert_value u2 u1 dpi pw ph isX (convert_value u1 u2 dpi pw ph isX v) = v
        ∧ convert_value u2 u3 dpi pw ph isX (convert_value u1 u2 dpi pw ph isX v)
            = convert_value u1 u3 dpi pw ph isX v
        ∧ convert_bbox u2 u1 dpi pw ph (convert_bbox u1 u2 dpi pw ph bb) = bb
        ∧ convert_bbox u2 u3 dpi pw ph (convert_bbox u1 u2 dpi pw ph bb)
            = convert_bbox u1 u3 dpi pw ph bb := by
  intro u1 u2 u3 dpi pw ph v isX bb hd hw hh
  have hd0 : dpi ≠ 0 := ne_of_gt hd
  have hw0 : pw ≠ 0 := ne_of_gt hw
  have hh0 : ph ≠ 0 := ne_of_gt hh
  have hval : ∀ (ua ub : CoordinateUnit) (ax : Bool) (w : ℚ),
      convert_value ub ua dpi pw ph ax (convert_value ua ub dpi pw ph ax w) = w := by
    intro ua ub ax w
    unfold convert_value
    rw [toPoints_fromPoints ub dpi pw ph _ ax hd0 hw0 hh0,
      fromPoints_toPoints ua dpi pw ph w ax hd0 hw0 hh0]
  have hchain : ∀ (ua ub uc : CoordinateUnit) (ax : Bool) (w : ℚ),
      convert_value ub uc dpi pw ph ax (convert_value ua ub dpi pw ph ax w)
        = convert_value ua uc dpi pw ph ax w := by
    intro ua ub uc ax w
    unfold convert_value
    rw [toPoints_fromPoints ub dpi pw ph _ ax hd0 hw0 hh0]
  refine ⟨hval u1 u2 isX v, hchain u1 u2 u3 isX v, ?_, ?_⟩
  · unfold convert_bbox
    rw [hval u1 u2 true bb.x0, hval u1 u2 false bb.y0,
      hval u1 u2 true bb.x1, hval u1 u2 false bb.y1]
  · unfold convert_bbox
    rw [hchain u1 u2 u3 true bb.x0, hchain u1 u2 u3 false bb.y0,
      hchain u1 u2 u3 true bb.x1, hchain u1 u2 u3 false bb.y1]

/-- Claim C9 witness: points → pixels at 300 DPI on an A4-sized page,
round-tripped and chained through inches. -/
theorem convert_roundtrip_chain_witness :
    convert_value CoordinateUnit.pixels CoordinateUnit.points 300 595 842 true
        (convert_value CoordinateUnit.points CoordinateUnit.pixels 300 595 842 true 100) = 100
      ∧ convert_value CoordinateUnit.pixels CoordinateUnit.inches 300 595 842 true
          (convert_value CoordinateUnit.points CoordinateUnit.pixels 300 595 842 true 100)
        = convert_value CoordinateUnit.points CoordinateUnit.inches 300 595 842 true 100
      ∧ convert_bbox CoordinateUnit.pixels CoordinateUnit.points 300 595 842
          (convert_bbox CoordinateUnit.points CoordinateUnit.pixels 300 595 842 ⟨0, 0, 40, 20⟩)
        = ⟨0, 0, 40, 20⟩
      ∧ convert_bbox CoordinateUnit.pixels CoordinateUnit.inches 300 595 842
          (convert_bbox CoordinateUnit.points CoordinateUnit.pixels 300 595 842 ⟨0, 0, 40, 20⟩)
        = convert_bbox CoordinateUnit.points CoordinateUnit.inches 300 595 842 ⟨0, 0, 40, 20⟩ :=
  convert_roundtrip_chain CoordinateUnit.points CoordinateUnit.pixels
    CoordinateUnit.inches 300 595 842 100 true ⟨0, 0, 40, 20⟩
    (by norm_num) (by norm_num) (by norm_num)

end Unifex
